import Mathlib

/-!
Verification of the `talvez` optional-value library.

The library is embedded shallowly: Python values become the inductive
type `PyVal`, Python callables that may raise become Lean functions into
`Except PyErr PyVal`, and each source function of `core.py`, `ops.py`,
`predicates.py` and `wrappers.py` is translated into an executable Lean
definition of the same name (where Lean's lexer allows it).
-/

namespace Talvez

/-- Python exception values.  Only the classes that appear in the source
are distinguished; `userError` stands for arbitrary user-raised ones. -/
inductive PyErr where
  | typeError
  | runtimeError
  | attributeError
  | userError (n : Nat)
deriving DecidableEq, Repr

/-- A Python float, kept symbolic: NaN, the two infinities, or a finite
value (represented by an integer, which is all the claims need). -/
inductive PyFloat where
  | nan
  | inf
  | ninf
  | fin (q : Int)
deriving DecidableEq, Repr

/-- The universe of Python values the library manipulates.  `Just` and
`nothingV` embed the library's own `Just` instances and the `Nothing`
singleton of `core.py` as first-class values, which is needed because
`Just.bind` performs a runtime `isinstance` check on its callback's
return value. -/
inductive PyVal where
  | noneV
  | pyBool (b : Bool)
  | pyInt (n : Int)
  | pyFloat (f : PyFloat)
  | pyStr (s : String)
  | pyList (xs : List PyVal)
  | just (v : PyVal)
  | nothingV

/-- A Python callable of one argument: it either returns a value or
raises an exception. -/
def PyFun : Type := PyVal → Except PyErr PyVal

/-- Python's `isinstance(x, (Just, _Nothing))`: the defensive Maybe check used by
`Just.bind` (core.py line 61). -/
def PyVal.isMaybe : PyVal → Bool
  | .just _ => true
  | .nothingV => true
  | _ => false

/-- Python's `x is True` (identity with the `True` singleton). -/
def is_True : PyVal → Bool
  | .pyBool true => true
  | _ => false

/-- Python's `x is None` (identity with the `None` singleton). -/
def is_None : PyVal → Bool
  | .noneV => true
  | _ => false

/-- Python's `isinstance(a, float)`. -/
def isinstance_float : PyVal → Bool
  | .pyFloat _ => true
  | _ => false

/-- Python's `isinstance(a, (float, int))`.  Python's `bool` is a subclass of
`int`, so booleans pass this check. -/
def isinstance_float_or_int : PyVal → Bool
  | .pyFloat _ => true
  | .pyInt _ => true
  | .pyBool _ => true
  | _ => false

/-- Python's `math.isnan(a)` on values that pass the float isinstance check. -/
def math_isnan : PyVal → Bool
  | .pyFloat .nan => true
  | _ => false

/-- Python's `a == float("inf")`. -/
def eq_pos_inf : PyVal → Bool
  | .pyFloat .inf => true
  | _ => false

/-- Python's `a == float("-inf")`. -/
def eq_neg_inf : PyVal → Bool
  | .pyFloat .ninf => true
  | _ => false

/-- predicates.py `not_true`: `not (x is True)`. -/
def not_true (x : PyVal) : Bool := !(is_True x)

/-- predicates.py `not_null`: `not_true(a is None)`. -/
def not_null (a : PyVal) : Bool := not_true (.pyBool (is_None a))

/-- predicates.py `not_nan`: `not (isinstance(a, float) and math.isnan(a))`. -/
def not_nan (a : PyVal) : Bool := !(isinstance_float a && math_isnan a)

/-- predicates.py `not_infinite`:
`not (isinstance(a, (float, int)) and (a == float("inf") or a == float("-inf")))`. -/
def not_infinite (a : PyVal) : Bool :=
  !(isinstance_float_or_int a && (eq_pos_inf a || eq_neg_inf a))

/-- predicates.py `not_undefined`: `all([not_null(a), not_nan(a), not_infinite(a)])`. -/
def not_undefined (a : PyVal) : Bool :=
  [not_null a, not_nan a, not_infinite a].all id

/-- predicates.py `and_`: the combined predicate loops over `preds`,
returns `False` at the first predicate whose result is not exactly
`True`, and lets an exception raised by a predicate propagate (no
`try` around the call). -/
def and_ : List PyFun → PyVal → Except PyErr PyVal
  | [], _ => .ok (.pyBool true)
  | p :: ps, a =>
    match p a with
    | .error e => .error e
    | .ok r => if not_true r then .ok (.pyBool false) else and_ ps a

/-- predicates.py `or_`: the combined predicate loops over `preds`,
returns `True` at the first predicate whose result is exactly `True`,
swallows an exception raised by a predicate (`except: continue`), and
returns `False` after the loop.  It can never raise, so its result type
is a plain `PyVal`. -/
def or_ : List PyFun → PyVal → PyVal
  | [], _ => .pyBool false
  | p :: ps, a =>
    match p a with
    | .error _ => or_ ps a
    | .ok r => if is_True r then .pyBool true else or_ ps a

/-! ### core.py: the Maybe type -/

/-- core.py `just`: the raw `Just` constructor, wrapping any value —
`None` included. -/
def just (a : PyVal) : PyVal := PyVal.just a

/-- core.py `nothing`: returns the `Nothing` singleton. -/
def nothing : PyVal := PyVal.nothingV

/-- core.py `from_optional`: `nothing() if opt is None else just(opt)`. -/
def from_optional (opt : PyVal) : PyVal :=
  if is_None opt then nothing else just opt

/-- The `fmap` method.  On `Just(v)` (core.py lines 52-56) it evaluates
`fn(v)` inside `try`, wraps a normal result with the raw constructor
`just`, and turns a raised exception into `Nothing`.  On `Nothing`
(lines 18-19) it returns `self`.  Accessing `.fmap` on a non-Maybe
object raises `AttributeError`; the result type `Except PyErr PyVal`
records that the method itself could in principle raise. -/
def PyVal.fmap : PyVal → PyFun → Except PyErr PyVal
  | .just v, fn =>
    .ok (match fn v with
      | .ok r => just r
      | .error _ => PyVal.nothingV)
  | .nothingV, _ => .ok .nothingV
  | _, _ => .error .attributeError

/-- The `bind` method.  On `Just(v)` (core.py lines 58-65) it evaluates
`fn(v)` inside `try`; a result that is not a Maybe instance triggers
`raise TypeError`, which the same `except Exception` catches, so both a
raising `fn` and an invalid return value give `Nothing`; a valid Maybe
result is returned unchanged.  On `Nothing` (lines 21-22) it returns
`self`. -/
def PyVal.bind : PyVal → PyFun → Except PyErr PyVal
  | .just v, fn =>
    .ok (match fn v with
      | .ok r => if r.isMaybe then r else PyVal.nothingV
      | .error _ => PyVal.nothingV)
  | .nothingV, _ => .ok .nothingV
  | _, _ => .error .attributeError

/-- The `get_or` method: `Just(v).get_or(d) = v`, `Nothing.get_or(d) = d`. -/
def PyVal.get_or : PyVal → PyVal → Except PyErr PyVal
  | .just v, _ => .ok v
  | .nothingV, d => .ok d
  | _, _ => .error .attributeError

/-- The `to_optional` method: `Just(v).to_optional() = v` (core.py lines
70-71), `Nothing.to_optional() = None` (lines 27-28). -/
def PyVal.to_optional : PyVal → Except PyErr PyVal
  | .just v => .ok v
  | .nothingV => .ok .noneV
  | _ => .error .attributeError

/-- The `is_nothing` property. -/
def PyVal.is_nothing : PyVal → Except PyErr Bool
  | .just _ => .ok false
  | .nothingV => .ok true
  | _ => .error .attributeError

/-- The `is_just` property. -/
def PyVal.is_just : PyVal → Except PyErr Bool
  | .just _ => .ok true
  | .nothingV => .ok false
  | _ => .error .attributeError

/-- The loop body of core.py `sequence`, carrying the accumulator
`out`: `for m in maybes: if isinstance(m, _Nothing): return Nothing;
out.append(m.value)` and finally `return just(out)`.  `m.value` on a
value that is neither `Just` nor `Nothing` raises `AttributeError`. -/
def sequenceLoop (out : List PyVal) : List PyVal → Except PyErr PyVal
  | [] => .ok (just (.pyList out))
  | m :: ms =>
    match m with
    | .nothingV => .ok PyVal.nothingV
    | .just v => sequenceLoop (out ++ [v]) ms
    | _ => .error .attributeError

/-- core.py `sequence`, started with the empty accumulator `out = []`. -/
def sequence (maybes : List PyVal) : Except PyErr PyVal :=
  sequenceLoop [] maybes

/-! ### ops.py: the chain combinator -/

/-- ops.py `chain`: `current = m; for fn in fns: if current.is_nothing:
break; current = current.bind(fn); return current`.  Both the property
access and `bind` can raise on a non-Maybe `current`, which the loop
does not guard against, hence the `Except` plumbing via `do`. -/
def chain (m : PyVal) : List PyFun → Except PyErr PyVal
  | [] => .ok m
  | fn :: fns => do
    let b ← m.is_nothing
    if b then
      .ok m
    else do
      let current ← m.bind fn
      chain current fns

/-- ops.py `compose_maybe`: returns a runner that chains its argument
through the captured step list. -/
def compose_maybe (fns : List PyFun) : PyVal → Except PyErr PyVal :=
  fun m => chain m fns

/-! ### wrappers.py: safety wrappers -/

/-- The observable behaviour of one call to the target function `f`
with fixed arguments: either it raises, or it returns a value, having
emitted (or not) at least one warning along the way. -/
inductive CallOutcome where
  | raises (e : PyErr)
  | returns (v : PyVal) (warned : Bool)

/-- wrappers.py `_with_warning_capture`: runs the target inside a
recording `warnings.catch_warnings` scope; an exception from the target
propagates, and if the captured list `w` is non-empty while
`allow_warning` is false, a `RuntimeError` is raised in its place. -/
def with_warning_capture (outcome : CallOutcome) (allow_warning : Bool) :
    Except PyErr PyVal :=
  match outcome with
  | .raises e => .error e
  | .returns v warned =>
    if warned && !allow_warning then .error .runtimeError else .ok v

/-- The defaulted validator: `ensure if ensure is not None else
(lambda a: True)`, shared by both wrappers. -/
def ensure_fn (ensure : Option PyFun) : PyFun :=
  match ensure with
  | some e => e
  | none => fun _ => .ok (.pyBool true)

/-- wrappers.py `maybe` (variant A), collapsed over the decorator
plumbing: the wrapped call captures warnings, turns an exception (from
the target or the promoted warning) into `nothing()`, then runs the
validator inside its own `try`, returning `nothing()` if it raises or
if its result is not exactly `True`, and `just(result)` otherwise.  The
wrapper body is under `Except` only to record that it contains no
uncaught raise. -/
def maybe (ensure : Option PyFun) (allow_warning : Bool)
    (outcome : CallOutcome) : Except PyErr PyVal :=
  match with_warning_capture outcome allow_warning with
  | .error _ => .ok nothing
  | .ok result =>
    match ensure_fn ensure result with
    | .error _ => .ok nothing
    | .ok r => if not_true r then .ok nothing else .ok (just result)

/-- wrappers.py `perhaps` (variant B): identical protocol, but failure
produces the fixed `default` and success the raw `result`. -/
def perhaps (default : PyVal) (ensure : Option PyFun) (allow_warning : Bool)
    (outcome : CallOutcome) : Except PyErr PyVal :=
  match with_warning_capture outcome allow_warning with
  | .error _ => .ok default
  | .ok result =>
    match ensure_fn ensure result with
    | .error _ => .ok default
    | .ok r => if not_true r then .ok default else .ok result

/-! ### Pipelines built from the public combinators -/

/-- One stage of a user pipeline: either a `transform` (`fmap`) with an
arbitrary user function, or a `chain` (ops.py) through a list of
arbitrary user step functions. -/
inductive Step where
  | transformStep (fn : PyFun)
  | chainStep (fns : List PyFun)

/-- Run one pipeline stage on the current Optional Value. -/
def runStep (m : PyVal) : Step → Except PyErr PyVal
  | .transformStep fn => m.fmap fn
  | .chainStep fns => chain m fns

/-- Run a whole pipeline, propagating any exception a stage raises. -/
def runPipeline (m : PyVal) : List Step → Except PyErr PyVal
  | [] => .ok m
  | s :: ss => do
    let m2 ← runStep m s
    runPipeline m2 ss

/-! ### Helper lemmas -/

theorem is_True_iff (x : PyVal) : is_True x = true ↔ x = PyVal.pyBool true := by
  cases x with
  | pyBool b => cases b <;> simp [is_True]
  | noneV => simp [is_True]
  | pyInt n => simp [is_True]
  | pyFloat f => simp [is_True]
  | pyStr s => simp [is_True]
  | pyList xs => simp [is_True]
  | just v => simp [is_True]
  | nothingV => simp [is_True]

theorem not_true_eq_false_iff (x : PyVal) :
    not_true x = false ↔ x = PyVal.pyBool true := by
  rw [not_true, Bool.not_eq_false', is_True_iff]

theorem not_true_eq_true_iff (x : PyVal) :
    not_true x = true ↔ x ≠ PyVal.pyBool true := by
  rw [not_true, Bool.not_eq_true', Bool.eq_false_iff, Ne, is_True_iff]

theorem fmap_ok_isMaybe (m : PyVal) (fn : PyFun) (hm : m.isMaybe = true) :
    ∃ r, m.fmap fn = .ok r ∧ r.isMaybe = true := by
  cases m with
  | just v =>
    cases h : fn v with
    | ok r => exact ⟨just r, by simp [PyVal.fmap, h, just], rfl⟩
    | error e => exact ⟨.nothingV, by simp [PyVal.fmap, h], rfl⟩
  | nothingV => exact ⟨.nothingV, rfl, rfl⟩
  | noneV => simp [PyVal.isMaybe] at hm
  | pyBool b => simp [PyVal.isMaybe] at hm
  | pyInt n => simp [PyVal.isMaybe] at hm
  | pyFloat f => simp [PyVal.isMaybe] at hm
  | pyStr s => simp [PyVal.isMaybe] at hm
  | pyList xs => simp [PyVal.isMaybe] at hm

theorem bind_ok_isMaybe (m : PyVal) (fn : PyFun) (hm : m.isMaybe = true) :
    ∃ r, m.bind fn = .ok r ∧ r.isMaybe = true := by
  cases m with
  | just v =>
    cases h : fn v with
    | ok r =>
      cases hr : r.isMaybe with
      | true => exact ⟨r, by simp [PyVal.bind, h, hr], hr⟩
      | false => exact ⟨.nothingV, by simp [PyVal.bind, h, hr], rfl⟩
    | error e => exact ⟨.nothingV, by simp [PyVal.bind, h], rfl⟩
  | nothingV => exact ⟨.nothingV, rfl, rfl⟩
  | noneV => simp [PyVal.isMaybe] at hm
  | pyBool b => simp [PyVal.isMaybe] at hm
  | pyInt n => simp [PyVal.isMaybe] at hm
  | pyFloat f => simp [PyVal.isMaybe] at hm
  | pyStr s => simp [PyVal.isMaybe] at hm
  | pyList xs => simp [PyVal.isMaybe] at hm

theorem chain_nothing_eq (fns : List PyFun) : chain nothing fns = .ok nothing := by
  cases fns with
  | nil => rfl
  | cons fn fns => rfl

theorem chain_cons_just (v : PyVal) (fn : PyFun) (fns : List PyFun) :
    chain (.just v) (fn :: fns) =
      (PyVal.bind (.just v) fn >>= fun current => chain current fns) := rfl

theorem chain_ok_isMaybe (fns : List PyFun) :
    ∀ (m : PyVal), m.isMaybe = true → ∃ r, chain m fns = .ok r ∧ r.isMaybe = true := by
  induction fns with
  | nil => exact fun m hm => ⟨m, rfl, hm⟩
  | cons fn fns ih =>
    intro m hm
    cases m with
    | just v =>
      obtain ⟨c, hc, hcM⟩ := bind_ok_isMaybe (.just v) fn rfl
      obtain ⟨r, hr, hrM⟩ := ih c hcM
      refine ⟨r, ?_, hrM⟩
      rw [chain_cons_just, hc]
      exact hr
    | nothingV => exact ⟨nothing, chain_nothing_eq (fn :: fns), rfl⟩
    | noneV => simp [PyVal.isMaybe] at hm
    | pyBool b => simp [PyVal.isMaybe] at hm
    | pyInt n => simp [PyVal.isMaybe] at hm
    | pyFloat f => simp [PyVal.isMaybe] at hm
    | pyStr s => simp [PyVal.isMaybe] at hm
    | pyList xs => simp [PyVal.isMaybe] at hm

theorem sequenceLoop_map_just (vs : List PyVal) :
    ∀ (out ms : List PyVal),
      sequenceLoop out (vs.map just ++ ms) = sequenceLoop (out ++ vs) ms := by
  induction vs with
  | nil => intro out ms; simp [List.map_nil, List.nil_append, List.append_nil]
  | cons v vs ih =>
    intro out ms
    simp only [List.map_cons, List.cons_append]
    rw [show sequenceLoop out (just v :: (vs.map just ++ ms)) =
          sequenceLoop (out ++ [v]) (vs.map just ++ ms) from rfl]
    rw [ih (out ++ [v]) ms, List.append_assoc]
    rfl

/-! ### The claims -/

/-- C9: `not_undefined` holds exactly when `not_null`, `not_nan` and
`not_infinite` all hold, and in particular it is false at `None`, NaN and
the two infinities, and true at `0`, the empty string, `False` and `42`. -/
theorem not_undefined_spec :
    (∀ a : PyVal, not_undefined a = (not_null a && not_nan a && not_infinite a))
    ∧ not_undefined .noneV = false
    ∧ not_undefined (.pyFloat .nan) = false
    ∧ not_undefined (.pyFloat .inf) = false
    ∧ not_undefined (.pyFloat .ninf) = false
    ∧ not_undefined (.pyInt 0) = true
    ∧ not_undefined (.pyStr "") = true
    ∧ not_undefined (.pyBool false) = true
    ∧ not_undefined (.pyInt 42) = true := by
  refine ⟨fun a => ?_, rfl, rfl, rfl, rfl, rfl, rfl, rfl, rfl⟩
  cases h1 : not_null a <;> cases h2 : not_nan a <;> cases h3 : not_infinite a <;>
    simp [not_undefined, h1, h2, h3]

/-- C10: converting a raw nullable value into the Maybe type with
`from_optional` and back out with `to_optional` is the identity: `None`
goes to `Nothing` and back to `None`, and any non-null value `x` goes to
`Just(x)` and back to `x`. -/
theorem from_optional_to_optional_id :
    (∀ x : PyVal, (from_optional x).to_optional = Except.ok x)
    ∧ from_optional .noneV = nothing
    ∧ (∀ x : PyVal, is_None x = false → from_optional x = just x) := by
  refine ⟨fun x => ?_, rfl, fun x hx => ?_⟩
  · cases x <;> rfl
  · simp [from_optional, hx]

theorem from_optional_to_optional_id_wit :
    (from_optional (.pyInt 5)).to_optional = Except.ok (.pyInt 5)
    ∧ from_optional (.pyInt 5) = just (.pyInt 5) :=
  ⟨from_optional_to_optional_id.1 (.pyInt 5),
   from_optional_to_optional_id.2.2 (.pyInt 5) rfl⟩

/-- C1 as stated is false on the code: `Just.fmap` wraps a successful
result with the raw constructor `just`, not with `from_optional`, so a
function returning `None` yields `Just(None)` rather than `Nothing`. -/
theorem fmap_counterexample :
    PyVal.fmap (just (.pyInt 1)) (fun _ => .ok .noneV) = .ok (just .noneV)
    ∧ PyVal.fmap (just (.pyInt 1)) (fun _ => .ok .noneV) ≠ .ok nothing := by
  refine ⟨rfl, fun h => ?_⟩
  exact PyVal.noConfusion (Except.ok.inj h)

/-- C1 amended: `transform` on `Present(v)` wraps any successful result of
`f` in `Present` with the raw constructor — even a `None` result becomes
`Present(None)`, not `Absent` — and a raising `f` yields `Absent`. -/
theorem fmap_present_raw (v : PyVal) (fn : PyFun) :
    (∀ r, fn v = .ok r → PyVal.fmap (just v) fn = .ok (just r))
    ∧ (∀ e, fn v = .error e → PyVal.fmap (just v) fn = .ok nothing) := by
  constructor
  · intro r h; simp [PyVal.fmap, just, h]
  · intro e h; simp [PyVal.fmap, just, nothing, h]

theorem fmap_present_raw_wit :
    PyVal.fmap (just (.pyInt 2)) (fun _ => .ok .noneV) = .ok (just .noneV) :=
  (fmap_present_raw (.pyInt 2) (fun _ => .ok .noneV)).1 .noneV rfl

/-- C3: `bind` on `Present(v)` returns `Absent` when `f` raises or when
the returned value fails the defensive Maybe instance check, returns
exactly the Maybe `f` returned otherwise (no extra wrapping), and `bind`
on `Absent` returns `Absent` for every `f`. -/
theorem bind_spec (v : PyVal) (fn : PyFun) :
    (∀ e, fn v = .error e → PyVal.bind (just v) fn = .ok nothing)
    ∧ (∀ r, fn v = .ok r → r.isMaybe = false → PyVal.bind (just v) fn = .ok nothing)
    ∧ (∀ r, fn v = .ok r → r.isMaybe = true → PyVal.bind (just v) fn = .ok r)
    ∧ PyVal.bind nothing fn = .ok nothing := by
  refine ⟨fun e h => ?_, fun r h hr => ?_, fun r h hr => ?_, rfl⟩
  · simp [PyVal.bind, just, nothing, h]
  · simp [PyVal.bind, just, nothing, h, hr]
  · simp [PyVal.bind, just, h, hr]

theorem bind_spec_wit :
    PyVal.bind (just (.pyInt 0)) (fun _ => .ok (.pyInt 3)) = .ok nothing
    ∧ PyVal.bind (just (.pyInt 0)) (fun _ => .ok nothing) = .ok nothing :=
  ⟨(bind_spec (.pyInt 0) (fun _ => .ok (.pyInt 3))).2.1 (.pyInt 3) rfl rfl,
   (bind_spec (.pyInt 0) (fun _ => .ok nothing)).2.2.1 nothing rfl rfl⟩

/-- C6: `sequence` returns `Present` of the list of inner values when
every item is `Present`, and returns `Absent` at the first `Absent` item
whatever comes after it (the remainder of the input is never examined). -/
theorem sequence_spec :
    (∀ vs : List PyVal, sequence (vs.map just) = .ok (just (.pyList vs)))
    ∧ (∀ vs rest : List PyVal,
        sequence (vs.map just ++ nothing :: rest) = .ok nothing) := by
  constructor
  · intro vs
    have h := sequenceLoop_map_just vs [] []
    rw [List.append_nil, List.nil_append] at h
    rw [sequence, h]
    rfl
  · intro vs rest
    rw [sequence, sequenceLoop_map_just vs [] (nothing :: rest)]
    rfl

/-- C7: ops.py `chain` applies its steps in order through `bind` (on a
`Present` start the first step is run with no separate emptiness
short-cut changing the outcome), an `Absent` start gives `Absent`, and
once the accumulated value is `Absent` within some prefix of the steps,
appending any further steps leaves the result `Absent` (so the later
step functions can never influence, nor be reached by, the run). -/
theorem run_chain_spec :
    (∀ (v : PyVal) (fn : PyFun) (fns : List PyFun),
        chain (just v) (fn :: fns) =
          (PyVal.bind (just v) fn >>= fun c => chain c fns))
    ∧ (∀ (fn : PyFun) (fns : List PyFun), chain nothing (fn :: fns) = .ok nothing)
    ∧ (∀ (m : PyVal) (fns rest : List PyFun),
        chain m fns = .ok nothing → chain m (fns ++ rest) = .ok nothing) := by
  refine ⟨fun v fn fns => rfl, fun fn fns => rfl, ?_⟩
  intro m fns rest
  induction fns generalizing m with
  | nil =>
    intro h
    have hm : m = nothing := Except.ok.inj h
    subst hm
    exact chain_nothing_eq rest
  | cons fn fns ih =>
    intro h
    cases m with
    | just v =>
      obtain ⟨c, hc, hcM⟩ := bind_ok_isMaybe (.just v) fn rfl
      have h' : chain c fns = .ok nothing := by
        rw [chain_cons_just, hc] at h
        exact h
      rw [List.cons_append, chain_cons_just, hc]
      exact ih c h'
    | nothingV => exact chain_nothing_eq (fn :: fns ++ rest)
    | noneV => exact Except.noConfusion h
    | pyBool b => exact Except.noConfusion h
    | pyInt n => exact Except.noConfusion h
    | pyFloat f => exact Except.noConfusion h
    | pyStr s => exact Except.noConfusion h
    | pyList xs => exact Except.noConfusion h

theorem run_chain_spec_wit :
    chain (just (.pyInt 1))
        ([fun _ => .ok nothing] ++ [fun _ => .ok (just (.pyInt 7))]) = .ok nothing :=
  run_chain_spec.2.2 (just (.pyInt 1)) [fun _ => .ok nothing]
    [fun _ => .ok (just (.pyInt 7))] rfl

/-- C4: `and_` propagates an exception of a predicate, leaving the later
predicates unevaluated (the result does not depend on them), and returns
`False` as soon as a predicate returns a non-`True` value; `or_` swallows
a raising predicate and moves on, returns `True` at the first predicate
returning exactly `True`, and returns `False` when every predicate raises
or returns a non-`True` value. -/
theorem and_or_error_policy :
    (∀ (p : PyFun) (ps : List PyFun) (a : PyVal) (e : PyErr),
        p a = .error e → and_ (p :: ps) a = .error e)
    ∧ (∀ (p : PyFun) (ps : List PyFun) (a r : PyVal),
        p a = .ok r → not_true r = true → and_ (p :: ps) a = .ok (.pyBool false))
    ∧ (∀ (p : PyFun) (ps : List PyFun) (a : PyVal) (e : PyErr),
        p a = .error e → or_ (p :: ps) a = or_ ps a)
    ∧ (∀ (p : PyFun) (ps : List PyFun) (a : PyVal),
        p a = .ok (.pyBool true) → or_ (p :: ps) a = .pyBool true)
    ∧ (∀ (ps : List PyFun) (a : PyVal),
        (∀ p ∈ ps, (∃ e, p a = .error e) ∨ ∃ r, p a = .ok r ∧ not_true r = true) →
        or_ ps a = .pyBool false) := by
  refine ⟨?_, ?_, ?_, ?_, ?_⟩
  · intro p ps a e h; simp [and_, h]
  · intro p ps a r h ht; simp [and_, h, ht]
  · intro p ps a e h; simp [or_, h]
  · intro p ps a h; simp [or_, h, is_True]
  · intro ps a
    induction ps with
    | nil => intro _; rfl
    | cons p ps ih =>
      intro h
      have htail := fun q hq => h q (List.mem_cons_of_mem p hq)
      rcases h p (List.mem_cons_self p ps) with ⟨e, he⟩ | ⟨r, hr, ht⟩
      · have h1 : or_ (p :: ps) a = or_ ps a := by simp [or_, he]
        rw [h1]
        exact ih htail
      · have ht' : is_True r = false := by simpa [not_true] using ht
        have h1 : or_ (p :: ps) a = or_ ps a := by simp [or_, hr, ht']
        rw [h1]
        exact ih htail

theorem and_or_error_policy_wit :
    and_ [fun _ => .error (.userError 3), fun _ => .ok (.pyBool true)] (.pyInt 0) =
        .error (.userError 3)
    ∧ and_ [fun _ => .ok (.pyInt 1), fun _ => .ok (.pyBool true)] (.pyInt 0) =
        .ok (.pyBool false)
    ∧ or_ [fun _ => .error (.userError 3), fun _ => .ok (.pyBool true)] (.pyInt 0) =
        .pyBool true
    ∧ or_ [fun _ => .error (.userError 3), fun _ => .ok (.pyInt 1)] (.pyInt 0) =
        .pyBool false := by
  refine ⟨?_, ?_, ?_, ?_⟩
  · exact and_or_error_policy.1 _ [fun _ => .ok (.pyBool true)] (.pyInt 0)
      (.userError 3) rfl
  · exact and_or_error_policy.2.1 _ [fun _ => .ok (.pyBool true)] (.pyInt 0)
      (.pyInt 1) rfl rfl
  · rw [and_or_error_policy.2.2.1 (fun _ => .error (.userError 3))
      [fun _ => .ok (.pyBool true)] (.pyInt 0) (.userError 3) rfl]
    rfl
  · refine and_or_error_policy.2.2.2.2 _ (.pyInt 0) ?_
    intro q hq
    rcases List.mem_cons.mp hq with h1 | hq2
    · subst h1; exact Or.inl ⟨.userError 3, rfl⟩
    · rcases List.mem_cons.mp hq2 with h1 | hq3
      · subst h1; exact Or.inr ⟨.pyInt 1, rfl, rfl⟩
      · cases hq3

theorem maybe_raises_eval (ensure : Option PyFun) (w : Bool) (e : PyErr) :
    maybe ensure w (.raises e) = .ok nothing := rfl

theorem maybe_warned_eval (ensure : Option PyFun) (v : PyVal) :
    maybe ensure false (.returns v true) = .ok nothing := rfl

theorem maybe_returns_eval (ensure : Option PyFun) (w : Bool) (v : PyVal)
    (warned : Bool) (hok : warned = false ∨ w = true) :
    maybe ensure w (.returns v warned) =
      match ensure_fn ensure v with
      | .error _ => .ok nothing
      | .ok r => if not_true r then .ok nothing else .ok (just v) := by
  rcases hok with h | h
  · subst h; rfl
  · subst h; cases warned <;> rfl

theorem perhaps_returns_eval (d : PyVal) (ensure : Option PyFun) (w : Bool)
    (v : PyVal) (warned : Bool) (hok : warned = false ∨ w = true) :
    perhaps d ensure w (.returns v warned) =
      match ensure_fn ensure v with
      | .error _ => .ok d
      | .ok r => if not_true r then .ok d else .ok v := by
  rcases hok with h | h
  · subst h; rfl
  · subst h; cases warned <;> rfl

theorem nothing_ne_just (r : PyVal) : nothing ≠ just r := fun h =>
  PyVal.noConfusion h

theorem maybe_shape (ensure : Option PyFun) (w : Bool) (outcome : CallOutcome) :
    maybe ensure w outcome = .ok nothing ∨
      ∃ r, maybe ensure w outcome = .ok (just r) := by
  cases hwc : with_warning_capture outcome w with
  | error e => exact .inl (by simp [maybe, hwc])
  | ok result =>
    cases he : ensure_fn ensure result with
    | error e => exact .inl (by simp [maybe, hwc, he])
    | ok r =>
      cases ht : not_true r
      · exact .inr ⟨result, by simp [maybe, hwc, he, ht]⟩
      · exact .inl (by simp [maybe, hwc, he, ht])

theorem perhaps_some_ok (d : PyVal) (ensure : Option PyFun) (w : Bool)
    (outcome : CallOutcome) : ∃ r, perhaps d ensure w outcome = .ok r := by
  cases hwc : with_warning_capture outcome w with
  | error e => exact ⟨d, by simp [perhaps, hwc]⟩
  | ok result =>
    cases he : ensure_fn ensure result with
    | error e => exact ⟨d, by simp [perhaps, hwc, he]⟩
    | ok r =>
      cases ht : not_true r
      · exact ⟨result, by simp [perhaps, hwc, he, ht]⟩
      · exact ⟨d, by simp [perhaps, hwc, he, ht]⟩

theorem maybe_ok_isMaybe (ensure : Option PyFun) (w : Bool)
    (outcome : CallOutcome) :
    ∃ r, maybe ensure w outcome = .ok r ∧ r.isMaybe = true := by
  rcases maybe_shape ensure w outcome with h | ⟨r, h⟩
  · exact ⟨nothing, h, rfl⟩
  · exact ⟨just r, h, rfl⟩

theorem maybe_ok_just_inv (ensure : Option PyFun) (w : Bool) (v r : PyVal)
    (warned : Bool) (hok : warned = false ∨ w = true)
    (h : maybe ensure w (.returns v warned) = .ok (just r)) :
    v = r ∧ ensure_fn ensure r = .ok (.pyBool true) := by
  rw [maybe_returns_eval ensure w v warned hok] at h
  cases he : ensure_fn ensure v with
  | error e =>
    rw [he] at h
    exact absurd (Except.ok.inj h) (nothing_ne_just r)
  | ok res =>
    rw [he] at h
    have h' : (if not_true res = true then Except.ok nothing
        else Except.ok (just v)) = Except.ok (just r) := h
    cases ht : not_true res with
    | true =>
      rw [if_pos ht] at h'
      exact absurd (Except.ok.inj h') (nothing_ne_just r)
    | false =>
      rw [if_neg (by simp [ht])] at h'
      have hv : v = r := PyVal.just.inj (Except.ok.inj h')
      subst hv
      rw [not_true_eq_false_iff] at ht
      subst ht
      exact ⟨rfl, he⟩

theorem runPipeline_cons (m : PyVal) (s : Step) (ss : List Step) :
    runPipeline m (s :: ss) = (runStep m s >>= fun m2 => runPipeline m2 ss) := rfl

/-- C2: the `maybe` wrapper produces `Present(r)` exactly when the target
call returned `r` normally, no warning was emitted or the allow-warning
flag is set, and the validator evaluated on `r` without raising to
exactly the boolean `True`; in every other case it produces `Absent`
(the result is always one of those two shapes). -/
theorem maybe_wrapper_spec (ensure : Option PyFun) (w : Bool)
    (outcome : CallOutcome) :
    (∀ r : PyVal,
        maybe ensure w outcome = .ok (just r) ↔
          (outcome = .returns r false ∨ (outcome = .returns r true ∧ w = true))
            ∧ ensure_fn ensure r = .ok (.pyBool true))
    ∧ (maybe ensure w outcome = .ok nothing ∨
        ∃ r, maybe ensure w outcome = .ok (just r)) := by
  refine ⟨fun r => ⟨?_, ?_⟩, maybe_shape ensure w outcome⟩
  · intro h
    cases outcome with
    | raises e =>
      rw [maybe_raises_eval] at h
      exact absurd (Except.ok.inj h) (nothing_ne_just r)
    | returns v warned =>
      cases warned with
      | false =>
        obtain ⟨hv, hens⟩ := maybe_ok_just_inv ensure w v r false (Or.inl rfl) h
        subst hv
        exact ⟨Or.inl rfl, hens⟩
      | true =>
        cases w with
        | false =>
          rw [maybe_warned_eval] at h
          exact absurd (Except.ok.inj h) (nothing_ne_just r)
        | true =>
          obtain ⟨hv, hens⟩ := maybe_ok_just_inv ensure true v r true (Or.inr rfl) h
          subst hv
          exact ⟨Or.inr ⟨rfl, rfl⟩, hens⟩
  · rintro ⟨hout, hens⟩
    rcases hout with h1 | ⟨h1, hw⟩
    · subst h1
      rw [maybe_returns_eval ensure w r false (Or.inl rfl), hens]
      rfl
    · subst h1
      subst hw
      rw [maybe_returns_eval ensure true r true (Or.inr rfl), hens]
      rfl

theorem maybe_wrapper_spec_wit :
    maybe none false (.returns (.pyInt 7) false) = .ok (just (.pyInt 7)) :=
  ((maybe_wrapper_spec none false (.returns (.pyInt 7) false)).1 (.pyInt 7)).mpr
    ⟨Or.inl rfl, rfl⟩

/-- C8: the `perhaps` wrapper produces the raw returned value on a
successful call (no exception, no disallowed warning, validator exactly
`True`), and produces the fixed default when the target raises, when a
warning is emitted while the allow-warning flag is false, or when the
validator raises or returns a non-`True` value. -/
theorem perhaps_wrapper_spec (d : PyVal) (ensure : Option PyFun) (w : Bool)
    (o : CallOutcome) :
    (∀ v warned, o = .returns v warned → (warned = false ∨ w = true) →
        ensure_fn ensure v = .ok (.pyBool true) → perhaps d ensure w o = .ok v)
    ∧ (∀ e, o = .raises e → perhaps d ensure w o = .ok d)
    ∧ (∀ v, o = .returns v true → w = false → perhaps d ensure w o = .ok d)
    ∧ (∀ v warned e, o = .returns v warned → (warned = false ∨ w = true) →
        ensure_fn ensure v = .error e → perhaps d ensure w o = .ok d)
    ∧ (∀ v warned r, o = .returns v warned → (warned = false ∨ w = true) →
        ensure_fn ensure v = .ok r → not_true r = true →
        perhaps d ensure w o = .ok d) := by
  refine ⟨?_, ?_, ?_, ?_, ?_⟩
  · intro v warned ho hok he
    subst ho
    rw [perhaps_returns_eval d ensure w v warned hok, he]
    rfl
  · intro e ho
    subst ho
    rfl
  · intro v ho hw
    subst ho
    subst hw
    rfl
  · intro v warned e ho hok he
    subst ho
    rw [perhaps_returns_eval d ensure w v warned hok, he]
  · intro v warned r ho hok he ht
    subst ho
    rw [perhaps_returns_eval d ensure w v warned hok, he]
    simp [ht]

theorem perhaps_wrapper_spec_wit :
    perhaps (.pyInt 99) none false (.raises (.userError 0)) = .ok (.pyInt 99)
    ∧ perhaps (.pyInt 99) none false (.returns (.pyInt 7) false) = .ok (.pyInt 7) :=
  ⟨(perhaps_wrapper_spec (.pyInt 99) none false (.raises (.userError 0))).2.1
      (.userError 0) rfl,
   (perhaps_wrapper_spec (.pyInt 99) none false (.returns (.pyInt 7) false)).1
      (.pyInt 7) false rfl (Or.inl rfl) rfl⟩

/-- C5: a pipeline of `transform` and `chain` stages started on any
Optional Value runs to completion without raising and produces an
Optional Value, and the safety wrappers likewise never let an exception
escape: `maybe` always returns an Optional Value and `perhaps` always
returns a plain value. -/
theorem pipeline_never_raises :
    (∀ (m : PyVal) (steps : List Step), m.isMaybe = true →
        ∃ r, runPipeline m steps = .ok r ∧ r.isMaybe = true)
    ∧ (∀ (ensure : Option PyFun) (w : Bool) (o : CallOutcome),
        ∃ r, maybe ensure w o = .ok r ∧ r.isMaybe = true)
    ∧ (∀ (d : PyVal) (ensure : Option PyFun) (w : Bool) (o : CallOutcome),
        ∃ r, perhaps d ensure w o = .ok r) := by
  refine ⟨?_, maybe_ok_isMaybe, perhaps_some_ok⟩
  intro m steps
  induction steps generalizing m with
  | nil => exact fun hm => ⟨m, rfl, hm⟩
  | cons s ss ih =>
    intro hm
    obtain ⟨m2, h2, h2M⟩ : ∃ m2, runStep m s = .ok m2 ∧ m2.isMaybe = true := by
      cases s with
      | transformStep fn => exact fmap_ok_isMaybe m fn hm
      | chainStep fns => exact chain_ok_isMaybe fns m hm
    obtain ⟨r, hr, hrM⟩ := ih m2 h2M
    refine ⟨r, ?_, hrM⟩
    rw [runPipeline_cons, h2]
    exact hr

theorem pipeline_never_raises_wit :
    ∃ r, runPipeline (just (.pyInt 1))
        [Step.transformStep (fun _ => .error (.userError 0)),
          Step.chainStep [fun _ => .ok (.pyInt 5)]] = .ok r ∧ r.isMaybe = true :=
  pipeline_never_raises.1 (just (.pyInt 1)) _ rfl

end Talvez
